import Mathlib

/-
Verification of the loan-compliance-api regulation parsers.

The development shallowly embeds the regulation-parsing pipeline of the
repository (src/src/regulations/...) in Lean:
  * models.py            : clause/metadata/document records and the pydantic
                           required-field construction discipline,
  * parsers/uk_fca_conc.py and parsers/eu/eu_eba_gl_2020_06.py :
                           section locators, clause segmenters, title
                           resolvers and page attributors, with the Python
                           regular expressions rendered as explicit
                           backtracking scanners over lists of characters,
  * services/parser_service.py : the batch parse of all document types for a
                           jurisdiction and the bounded operation-history log.

Python strings are embedded as `List Char`; Python `re` character classes
`\d`, `\s`, `[A-Z]`, `[a-z]` are the ASCII classes used by the patterns in
the source.  Greedy/lazy quantifiers are embedded by trying candidate match
lengths in the engine's preference order (greedy: longest first; lazy:
shortest first), so each scanner realizes exactly the leftmost-preferred
match of its pattern.
-/

namespace LoanCompliance

/-- Python `str` embedded as a list of characters. -/
abbrev Str := List Char

/-- Python's `\s` class (and the default `str.strip()` set) over ASCII:
space, tab, newline, carriage return, vertical tab, form feed. -/
def isWsC (c : Char) : Bool :=
  c == ' ' || c == '\t' || c == '\n' || c == '\r' || c == '\x0b' || c == '\x0c'

/-- `str.strip()`: drop leading and trailing whitespace. -/
def stripL (s : Str) : Str :=
  ((s.dropWhile isWsC).reverse.dropWhile isWsC).reverse

/-- Extract `t[a:b]` (Python slice semantics for `0 ≤ a ≤ b`). -/
def sliceL (t : Str) (a b : Nat) : Str :=
  (t.drop a).take (b - a)

/-- `sep.join`-style split: Python `s.split(sep)` for a one-character
separator (`"".split(sep) = [""]`). -/
def splitOnC (sep : Char) (s : Str) : List Str :=
  s.foldr
    (fun c acc =>
      match acc with
      | [] => if c == sep then [[], []] else [[c]]
      | cur :: rest => if c == sep then [] :: cur :: rest else (c :: cur) :: rest)
    [[]]

/-- Python `s.split("\n")`. -/
def splitLinesL (s : Str) : List Str := splitOnC '\n' s

/-- Python `"\n".join(parts)`. -/
def joinLines : List Str → Str
  | [] => []
  | s :: rest =>
    match rest with
    | [] => s
    | _ :: _ => s ++ '\n' :: joinLines rest

/-- Lower-case a string character-wise (ASCII), for `re.IGNORECASE`
comparisons and Python `str.lower()`. -/
def lowerize (s : Str) : Str := s.map Char.toLower

/-- Python `s.split(".")[0]`. -/
def dotTop (s : Str) : Str := s.takeWhile (fun c => c != '.')

/-- Python `str.isdigit()` over ASCII: non-empty and all digits. -/
def allDigits (s : Str) : Bool := !s.isEmpty && s.all Char.isDigit

/-- Numeric value of a digit string (Python `int(s)` on its digit-only
domain). -/
def digitsToNat (s : Str) : Nat :=
  s.foldl (fun n c => n * 10 + (c.toNat - '0'.toNat)) 0

/-- Python `str(n)` for a natural number. -/
def natToStr (n : Nat) : Str := Nat.toDigits 10 n

/-- Occurrences of a single character (Python `s.count(c)` for one char). -/
def countChar (c : Char) (s : Str) : Nat := (s.filter (fun d => d == c)).length

/-- Python `needle in hay` substring containment. -/
def isInfixOfL (needle : Str) : Str → Bool
  | [] => needle.isEmpty
  | c :: rest => needle.isPrefixOf (c :: rest) || isInfixOfL needle rest

/-! ## The data model (src/src/regulations/models.py)

`RegulationClause`, `DocumentMetadata` and `ParsedDocument` are pydantic
models.  Construction of a pydantic model with a required field missing
raises a validation error; this is embedded by `mk...` constructors that
take the optionally-supplied fields as `Option` and return `Except`. -/

/-- models.py `RegulationCountry`. -/
inductive RegulationCountry
  | EU
  | UK
  | US
deriving DecidableEq, Repr

/-- models.py `ClauseType` ("R" = REGULATION i.e. rule, "G" = GUIDANCE). -/
inductive ClauseType
  | REGULATION
  | GUIDANCE
  | UNKNOWN
deriving DecidableEq, Repr

/-- models.py `RegulationClause` (the two title fields are always passed as
plain strings by the parsers, with `""` for "not found"). -/
structure RegulationClause where
  clause_section : Str
  clause_id : Str
  main_section_name : Str
  subsection_name : Str
  content : Str
  page_number : Int
  clause_type : ClauseType
deriving DecidableEq, Repr

/-- models.py `RegulationClause.determine_clause_type`, the `mode="after"`
model validator: an explicitly supplied non-UNKNOWN type is kept; otherwise
the type is derived from the `clause_id` suffix (" R" → REGULATION,
" G" → GUIDANCE, else UNKNOWN). -/
def determine_clause_type (clause_id : Str) (provided : ClauseType) : ClauseType :=
  if provided ≠ ClauseType.UNKNOWN then provided
  else if ([' ', 'R'] : Str).isSuffixOf clause_id then ClauseType.REGULATION
  else if ([' ', 'G'] : Str).isSuffixOf clause_id then ClauseType.GUIDANCE
  else ClauseType.UNKNOWN

/-- Construct a `RegulationClause` the way pydantic does: every field
below is supplied by all three parsers, so construction always succeeds,
and the model validator then fixes up `clause_type`.  `provided` is the
`clause_type` keyword argument (`UNKNOWN`, the field default, when the
caller omits it). -/
def mkRegulationClause (clause_section clause_id : Str) (main_section_name subsection_name : Str)
    (content : Str) (page_number : Int) (provided : ClauseType) : RegulationClause :=
  ⟨clause_section, clause_id, main_section_name, subsection_name, content, page_number,
    determine_clause_type clause_id provided⟩

/-- Pydantic validation failures relevant to this model family. -/
inductive PydanticError
  | missingCountry
  | totalPagesOutOfRange
deriving DecidableEq, Repr

/-- models.py `DocumentMetadata` (the open `additional_info` diagnostic map
carries no constraints and is not modelled). -/
structure DocumentMetadata where
  source_file : Str
  total_pages : Int
  sections_extracted : List Str
  parser_version : Option Str
  country : RegulationCountry
deriving DecidableEq, Repr

/-- Pydantic construction of `DocumentMetadata`: `country` is a required
field with no default (`Field(...)`), and `total_pages` is constrained
`ge=1`; a call that omits `country` or violates the bound raises a
validation error. -/
def mkDocumentMetadata (source_file : Str) (total_pages : Int) (sections_extracted : List Str)
    (parser_version : Option Str) (country : Option RegulationCountry) :
    Except PydanticError DocumentMetadata :=
  match country with
  | none => Except.error PydanticError.missingCountry
  | some c =>
    if 1 ≤ total_pages then
      Except.ok ⟨source_file, total_pages, sections_extracted, parser_version, c⟩
    else Except.error PydanticError.totalPagesOutOfRange

/-- models.py `ParsedDocument`. -/
structure ParsedDocument where
  document_type : Str
  version : Option Str
  country : RegulationCountry
  clauses : List RegulationClause
  metadata : DocumentMetadata
deriving DecidableEq, Repr

/-- Pydantic construction of `ParsedDocument`: `country` is required with
no default. -/
def mkParsedDocument (document_type : Str) (version : Option Str)
    (country : Option RegulationCountry) (clauses : List RegulationClause)
    (metadata : DocumentMetadata) : Except PydanticError ParsedDocument :=
  match country with
  | none => Except.error PydanticError.missingCountry
  | some c => Except.ok ⟨document_type, version, c, clauses, metadata⟩

/-- `Except.isOk` (defined locally to keep the development self-contained). -/
def isOkE : Except ε α → Bool
  | Except.ok _ => true
  | Except.error _ => false

/-- One page of extracted PDF text: the `{"page_number": ..., "text": ...}`
dict produced by `_extract_pdf_pages` (an empty `text` also stands for the
`None` that `pdfplumber` may return, since the parsers only test it for
falsiness). -/
structure Page where
  page_number : Int
  text : Str
deriving DecidableEq, Repr

/-- The `{"text": ..., "pages": ...}` dict returned by the section
locators. -/
structure SectionInfo where
  text : Str
  pages : List Int
deriving DecidableEq, Repr

/-! ## Pattern scanners

Each Python regular expression used by the parsers is embedded as an
explicit scanner.  A scanner works on the whole text `t` with an absolute
position, and backtracking quantifiers are realized by trying candidate
lengths in the regex engine's preference order through a continuation:
`[hi, hi-1, ..., lo]` for greedy repetition, shortest-first for lazy
repetition.  `re.MULTILINE` `^` anchors restrict match starts to line
starts; the leftmost match is found by trying line starts in increasing
order. -/

/-- Candidate counts for a greedy quantifier: `[hi, hi-1, ..., lo]`
(empty when `hi < lo`). -/
def descRange (lo hi : Nat) : List Nat :=
  (List.range (hi + 1 - lo)).map (fun i => hi - i)

/-- Length of the maximal run of characters satisfying `f` at position
`p` of `t`. -/
def runLen (f : Char → Bool) (t : Str) (p : Nat) : Nat :=
  ((t.drop p).takeWhile f).length

/-- Match a literal at position `p` (case-sensitive); returns the end
position. -/
def litAt (t : Str) (p : Nat) (s : Str) : Option Nat :=
  if s.isPrefixOf (t.drop p) then some (p + s.length) else none

/-- Match a literal at position `p` under `re.IGNORECASE` (ASCII case
folding); returns the end position. -/
def litAtCI (t : Str) (p : Nat) (s : Str) : Option Nat :=
  if (lowerize s).isPrefixOf (lowerize (t.drop p)) then some (p + s.length) else none

/-- `\s*` then continuation: greedy, longest run first. -/
def wsStarThen (t : Str) (p : Nat) (k : Nat → Option α) : Option α :=
  (descRange 0 (runLen isWsC t p)).findSome? (fun j => k (p + j))

/-- `\s+` then continuation: greedy, longest run first, at least one. -/
def wsPlusThen (t : Str) (p : Nat) (k : Nat → Option α) : Option α :=
  (descRange 1 (runLen isWsC t p)).findSome? (fun j => k (p + j))

/-- `\d{lo,hi}` then continuation: greedy. -/
def digitsThen (t : Str) (p lo hi : Nat) (k : Nat → Option α) : Option α :=
  (descRange lo (min hi (runLen Char.isDigit t p))).findSome? (fun j => k (p + j))

/-- `\d+` then continuation: greedy. -/
def digitsPlusThen (t : Str) (p : Nat) (k : Nat → Option α) : Option α :=
  (descRange 1 (runLen Char.isDigit t p)).findSome? (fun j => k (p + j))

/-- The positions where `re.MULTILINE` `^` matches: 0 and every position
just after a newline, in increasing order. -/
def lineStarts (t : Str) : List Nat :=
  0 :: ((List.range t.length).filter (fun i => t.get? i == some '\n')).map (fun i => i + 1)

/-- Is `r` a position where `re.MULTILINE` `^` matches? -/
def isLineStart (t : Str) (r : Nat) : Bool :=
  match r with
  | 0 => true
  | n + 1 => t.get? n == some '\n'

/-- Smallest `e` with `cpos ≤ e ≤ limit` satisfying `f` — the landing
position of a lazy `(.*?)` (with `re.DOTALL`) followed by a zero-width
condition `f`. -/
def firstFrom (cpos limit : Nat) (f : Nat → Bool) : Option Nat :=
  (List.range (limit + 1 - cpos)).findSome?
    (fun i => if f (cpos + i) then some (cpos + i) else none)

/-! ## UK FCA CONC parser (src/src/regulations/parsers/uk_fca_conc.py) -/

/-- `_find_section_text_and_pages` start pattern
`^\s*{re.escape(section_number)}\s+{re.escape(section_title)}` with
`re.IGNORECASE | re.MULTILINE`, matched at line start `p`; returns
`match.end()`.  (The same shape serves the section-7 special case
`^\s*7\.1\s+Application` via `sec = "7.1"`, `title = "Application"`.) -/
def ukStartAt (sec title t : Str) (p : Nat) : Option Nat :=
  wsStarThen t p (fun q =>
    (litAtCI t q sec).bind (fun r =>
      wsPlusThen t r (fun s_ => litAtCI t s_ title)))

/-- `start_pattern.search(text)`: end position of the leftmost match. -/
def ukStartSearch (sec title t : Str) : Option Nat :=
  (lineStarts t).findSome? (ukStartAt sec title t)

/-- `end_pattern = ^\s*(\d{1,2}(?:\.\d{1,2}[A-Z]?)?)\s+[A-Z][a-zA-Z\s]{10,}`
(`re.MULTILINE`), matched at line start `p`; returns `match.group(1)`.
The optional group and both bounded digit runs are greedy; the trailing
`[a-zA-Z\s]{10,}` only needs an existence check since nothing follows it. -/
def ukEndGroupAt (t : Str) (p : Nat) : Option Str :=
  wsStarThen t p (fun q =>
    digitsThen t q 1 2 (fun r =>
      let tailOk : Nat → Option Str := fun g1end =>
        wsPlusThen t g1end (fun u =>
          match t.get? u with
          | some c =>
            if c.isUpper then
              if 10 ≤ runLen (fun d => d.isAlpha || isWsC d) t (u + 1) then
                some (sliceL t q g1end)
              else none
            else none
          | none => none)
      (match litAt t r (['.'] : Str) with
       | some r2 =>
         digitsThen t r2 1 2 (fun r3 =>
           match t.get? r3 with
           | some c => if c.isUpper then tailOk (r3 + 1) <|> tailOk r3 else tailOk r3
           | none => tailOk r3)
       | none => none) <|> tailOk r))

/-- `end_pattern.search(text)`: leftmost match as
`(match.start(), match.group(1))`.  With `re.MULTILINE` the `^`-anchored
match can only start at a line start, so the leftmost match is the first
line start (in increasing order) where the pattern matches. -/
def ukEndSearch (t : Str) : Option (Nat × Str) :=
  (lineStarts t).findSome? (fun p => (ukEndGroupAt t p).map (fun g => (p, g)))

/-- The in-section boundary decision of `_find_section_text_and_pages`
(lines 150-175): given the end-pattern capture `g` on the current page,
does the section end here?  Section "7" is special-cased to end only at a
heading whose top-level prefix is "8"; otherwise a differing top-level
prefix always ends the section, and an equal one ends it unless the
capture is a dotted extension of the exact section id. -/
def ukSectionEndsHere (sec g : Str) : Bool :=
  let gTop := dotTop g
  let sTop := dotTop sec
  if sec = ('7' :: []) then gTop = ('8' :: [])
  else if gTop ≠ sTop then true
  else !((sec ++ ['.'] : Str).isPrefixOf g)

/-- The `in_section` phase of `_find_section_text_and_pages`: for each
page, skip it when empty; if the end pattern matches and the boundary
decision fires, append only the text before the match point and stop
(without recording the page); otherwise record the page and its stripped
text and continue. -/
def ukFindSectionLoop (sec : Str) (pages : List Page) (parts : List Str)
    (pnums : List Int) : List Str × List Int :=
  match pages with
  | [] => (parts, pnums)
  | pg :: rest =>
    if pg.text.isEmpty then ukFindSectionLoop sec rest parts pnums
    else
      match ukEndSearch pg.text with
      | some (s_, g) =>
        if ukSectionEndsHere sec g then (parts ++ [stripL (pg.text.take s_)], pnums)
        else ukFindSectionLoop sec rest (parts ++ [stripL pg.text]) (pnums ++ [pg.page_number])
      | none => ukFindSectionLoop sec rest (parts ++ [stripL pg.text]) (pnums ++ [pg.page_number])

/-- The `not in_section` phase: scan for the first page whose text matches
the start pattern; the remainder of that page after `match.end()` becomes
the first text part, the page is recorded, and scanning switches to the
in-section phase on the remaining pages. -/
def ukFindSectionScan (sec : Str) (startP : Str → Option Nat) (pages : List Page) :
    List Str × List Int :=
  match pages with
  | [] => ([], [])
  | pg :: rest =>
    if pg.text.isEmpty then ukFindSectionScan sec startP rest
    else
      match startP pg.text with
      | some e => ukFindSectionLoop sec rest [stripL (pg.text.drop e)] [pg.page_number]
      | none => ukFindSectionScan sec startP rest

/-- `UKFCACoNCParser._find_section_text_and_pages`. -/
def ukFindSection (pages : List Page) (sec title : Str) : Option SectionInfo :=
  let startP : Str → Option Nat :=
    if sec = ('7' :: []) then ukStartSearch (('7' :: '.' :: '1' :: []) : Str) ("Application".toList)
    else ukStartSearch sec title
  let r := ukFindSectionScan sec startP pages
  if r.1.isEmpty then none else some ⟨joinLines r.1, r.2⟩

/-- The `(?:\.\d+[A-Z]?)*` repetition of the clause-id group: greedy (one
more iteration preferred), with `\d+` greedy and `[A-Z]?`
present-preferred inside each iteration.  `fuel` bounds the number of
iterations (each consumes at least two characters, so `t.length`
suffices). -/
def ukIdRep (t : Str) : Nat → Nat → (Nat → Option α) → Option α
  | 0, p, k => k p
  | fuel + 1, p, k =>
    (match litAt t p (['.'] : Str) with
     | none => none
     | some q =>
       digitsPlusThen t q (fun r =>
         match t.get? r with
         | some c =>
           if c.isUpper then ukIdRep t fuel (r + 1) k <|> ukIdRep t fuel r k
           else ukIdRep t fuel r k
         | none => ukIdRep t fuel r k)) <|> k p

/-- Group 1 of the clause pattern then continuation: for section "7" the
source uses `7\.\d+(?:\.\d+[A-Z]?)*`, otherwise
`{re.escape(section_number)}(?:\.\d+[A-Z]?)*` (case-sensitive; escaping
makes the section id a literal). -/
def ukClauseIdThen (isSeven : Bool) (sec t : Str) (p : Nat) (k : Nat → Option α) : Option α :=
  if isSeven then
    match litAt t p (('7' :: '.' :: []) : Str) with
    | none => none
    | some q => digitsPlusThen t q (fun r => ukIdRep t t.length r k)
  else
    match litAt t p sec with
    | none => none
    | some q => ukIdRep t t.length q k

/-- The lookahead of the clause pattern,
`(?=^\s*{id-pattern}\s+[RG]\s+|\Z)`, tested at position `r`. -/
def ukLookaheadAt (isSeven : Bool) (sec t : Str) (r : Nat) : Bool :=
  decide (r = t.length) ||
  (isLineStart t r &&
    (wsStarThen t r (fun a =>
      ukClauseIdThen isSeven sec t a (fun b =>
        wsPlusThen t b (fun c =>
          match t.get? c with
          | some ch =>
            if ch = 'R' ∨ ch = 'G' then wsPlusThen t (c + 1) (fun d => some d) else none
          | none => none)))).isSome)

/-- One match of `_extract_clauses_from_section`'s clause pattern:
`mstart/mend` are `match.start()/match.end()`, `id/ty/content` are groups
1-3. -/
structure UkMatch where
  mstart : Nat
  id : Str
  ty : Char
  content : Str
  mend : Nat
deriving DecidableEq, Repr

/-- The clause pattern
`^\s*(ID)\s+([RG])\s+(.*?)(?=^\s*ID'\s+[RG]\s+|\Z)` with
`re.DOTALL | re.MULTILINE`, matched at line start `p`.  The lazy
`(.*?)` lands on the smallest end position at which the lookahead
holds (`\Z` guarantees one exists). -/
def ukClauseMatchAt (isSeven : Bool) (sec t : Str) (p : Nat) : Option UkMatch :=
  wsStarThen t p (fun q =>
    ukClauseIdThen isSeven sec t q (fun r =>
      wsPlusThen t r (fun s_ =>
        match t.get? s_ with
        | some ch =>
          if ch = 'R' ∨ ch = 'G' then
            wsPlusThen t (s_ + 1) (fun c =>
              (firstFrom c t.length (ukLookaheadAt isSeven sec t)).map (fun e =>
                ⟨p, sliceL t q r, ch, sliceL t c e, e⟩))
          else none
        | none => none)))

/-- `clause_pattern.finditer(section_text)`: repeatedly take the leftmost
match starting at or after the scan position (matches start at `^`
anchors, i.e. line starts) and continue from `match.end()`.  Every match
consumes at least one character, so `t.length + 1` steps suffice. -/
def ukClauseScanAux (isSeven : Bool) (sec t : Str) : Nat → Nat → List UkMatch
  | 0, _ => []
  | fuel + 1, pos =>
    match ((lineStarts t).filter (fun p => decide (pos ≤ p))).findSome?
        (ukClauseMatchAt isSeven sec t) with
    | none => []
    | some m => m :: ukClauseScanAux isSeven sec t fuel m.mend

/-- All clause-pattern matches of a section text, in document order. -/
def ukClauseMatches (sec t : Str) : List UkMatch :=
  ukClauseScanAux (sec = ('7' :: [])) sec t (t.length + 1) 0

/-- The inner `pages_content` loop condition of the inline page attributor:
is there a page record with number `p` whose text contains the clause id? -/
def ukPageHit (clause_id : Str) (pages : List Page) (p : Int) : Bool :=
  pages.any (fun pg => pg.page_number == p && isInfixOfL clause_id pg.text)

/-- The inline page attributor of `_extract_clauses_from_section` (lines
280-289).  Note the source's inner `break` leaves only the inner
`pages_content` loop, so the outer loop keeps overwriting `page_number`
with every later page of `section_pages` that contains the clause id; the
fold reproduces that (the assigned value does not depend on which
`page_info` matched, only on whether one does). -/
def ukFindClausePage (clause_id : Str) (section_pages : List Int) (pages : List Page) : Int :=
  let init : Int := match section_pages with | [] => -1 | p :: _ => p
  section_pages.foldl (fun acc p => if ukPageHit clause_id pages p then p else acc) init

/-- `re.sub(r"^\s*[.]{3,}.*", "", title)`: when the string starts with
optional whitespace followed by at least three dots, the match (which the
greedy `.*` extends to the end of that line) is removed. -/
def subDotsLeader (s : Str) : Str :=
  let k := runLen isWsC s 0
  let d := runLen (fun c => c == '.') s k
  if 3 ≤ d then s.drop (k + d + runLen (fun c => c != '\n') s (k + d)) else s

/-- `re.sub(r"\s+", " ", title)`: collapse every whitespace run to a
single space. -/
def collapseWsAux : Bool → Str → Str
  | _, [] => []
  | prevWs, c :: rest =>
    if isWsC c then
      if prevWs then collapseWsAux true rest else ' ' :: collapseWsAux true rest
    else c :: collapseWsAux false rest

/-- See `collapseWsAux`. -/
def collapseWs (s : Str) : Str := collapseWsAux false s

/-- `UKFCACoNCParser._find_main_section_name`: derive the two-component
key from the clause id, then return the first acceptable title found on a
line of a section page starting with that key and a space. -/
def ukFindMainSectionName (clause_id : Str) (pages : List Page) (section_pages : List Int) : Str :=
  match splitOnC '.' clause_id with
  | p0 :: p1 :: _ =>
    let mainSec : Str := p0 ++ '.' :: p1
    let fromLine : Str → Option Str := fun line0 =>
      let line := stripL line0
      if (mainSec ++ [' '] : Str).isPrefixOf line then
        let t1 := stripL (line.drop mainSec.length)
        let t2 := collapseWs (subDotsLeader t1)
        if 2 < t2.length && t2.length < 100 && !(("www".toList : Str).isPrefixOf t2) then
          some t2
        else none
      else none
    match
      (pages.filter (fun pg => section_pages.contains pg.page_number)).findSome?
        (fun pg => (splitLinesL pg.text).findSome? fromLine) with
    | some title => title
    | none => []
  | _ => []

/-- The subsection-header heuristic of `_find_subsection_name` (the big
conjunction at lines 204-215), evaluated on a stripped line. -/
def ukSubsectionHeaderOk (line : Str) : Bool :=
  3 < line.length && line.length < 50 &&
  (match line.head? with
   | some c => c.isUpper && !c.isDigit
   | none => false) &&
  !(isInfixOfL ("www.".toList) line) &&
  !(isInfixOfL ("Release".toList) line) &&
  !(isInfixOfL ("CONC".toList) line) &&
  !((line.take 10).contains '.') &&
  !((['('] : Str).isPrefixOf line) &&
  countChar ' ' line < 8

/-- `re.sub(r"^[.\s]+|[.\s]+$", "", line)`: remove the leading and the
trailing run of dots/whitespace. -/
def stripDotsWs (s : Str) : Str :=
  let f := fun c => isWsC c || c == '.'
  ((s.dropWhile f).reverse.dropWhile f).reverse

/-- The per-line state machine of `_find_subsection_name`: returns
`(some r, _)` when the loop hits a line containing the clause id (early
`return r`), else `(none, current')` with the updated running subsection. -/
def ukSubsectionLines (cid : Str) : List Str → Str → Option Str × Str
  | [], current => (none, current)
  | line0 :: rest, current =>
    let line := stripL line0
    if isInfixOfL cid line && line.length < 200 then (some current, current)
    else
      let current' :=
        if ukSubsectionHeaderOk line then
          let cleaned := stripDotsWs line
          if !cleaned.isEmpty && 3 < cleaned.length then cleaned else current
        else current
      ukSubsectionLines cid rest current'

/-- The page loop of `_find_subsection_name` (only pages in
`section_pages` are scanned; the early return propagates). -/
def ukSubsectionPages (cid : Str) : List Page → List Int → Str → Str
  | [], _, current => current
  | pg :: rest, spages, current =>
    if spages.contains pg.page_number then
      match ukSubsectionLines cid (splitLinesL pg.text) current with
      | (some r, _) => r
      | (none, current') => ukSubsectionPages cid rest spages current'
    else ukSubsectionPages cid rest spages current

/-- `UKFCACoNCParser._find_subsection_name`. -/
def ukFindSubsectionName (cid : Str) (pages : List Page) (section_pages : List Int) : Str :=
  ukSubsectionPages cid pages section_pages []

/-- `UKFCACoNCParser._extract_clauses_from_section`: map every clause
match to a `RegulationClause` (content is re-joined from stripped lines;
the clause id gets the `" R"`/`" G"` suffix; `clause_type` is not passed,
so the model validator derives it from the suffix). -/
def ukExtractClauses (info : SectionInfo) (sec : Str) (pages : List Page) :
    List RegulationClause :=
  (ukClauseMatches sec info.text).map (fun m =>
    let clause_id := stripL m.id
    let content0 := stripL m.content
    let content := stripL (joinLines ((splitLinesL content0).map stripL))
    let page_number := ukFindClausePage clause_id info.pages pages
    let msn := ukFindMainSectionName clause_id pages info.pages
    let ssn := ukFindSubsectionName clause_id pages info.pages
    mkRegulationClause sec (clause_id ++ ' ' :: m.ty :: []) msn ssn content page_number
      ClauseType.UNKNOWN)

/-! ## EU EBA GL 2020/06 parser
(src/src/regulations/parsers/eu/eu_eba_gl_2020_06.py) -/

/-- `_find_section_text_and_pages` start pattern
`^{section_number}\.?\s+{re.escape(section_title)}`
(`re.IGNORECASE | re.MULTILINE`) at line start `p`; the optional dot is
greedy (dot-consuming branch preferred); returns `match.end()`. -/
def euStartAt (sec title t : Str) (p : Nat) : Option Nat :=
  (litAtCI t p sec).bind (fun q =>
    (match litAt t q (['.'] : Str) with
     | some q2 => wsPlusThen t q2 (fun r => litAtCI t r title)
     | none => none) <|>
    wsPlusThen t q (fun r => litAtCI t r title))

/-- `start_pattern.search(text)`: end position of the leftmost match. -/
def euStartSearch (sec title t : Str) : Option Nat :=
  (lineStarts t).findSome? (euStartAt sec title t)

/-- `end_pattern = ^{next_section}\.?\s+` (`re.IGNORECASE | re.MULTILINE`)
at line start `p`; returns `match.start()` (that is, `p`) on success. -/
def euEndAt (nextS t : Str) (p : Nat) : Option Nat :=
  ((litAtCI t p nextS).bind (fun q =>
    (match litAt t q (['.'] : Str) with
     | some q2 => wsPlusThen t q2 (fun r => some r)
     | none => none) <|>
    wsPlusThen t q (fun r => some r))).map (fun _ => p)

/-- `end_pattern.search(text)`: start position of the leftmost match. -/
def euEndSearch (nextS t : Str) : Option Nat :=
  (lineStarts t).findSome? (euEndAt nextS t)

/-- The table-of-contents disambiguation at line 207: a start-pattern
match only begins the section when the page contains the interior marker
`"240."` or its page number is at least 50. -/
def euStartCond (pg : Page) : Bool :=
  isInfixOfL ("240.".toList) pg.text || decide (pg.page_number ≥ 50)

/-- A page both matches the section start pattern and passes
`euStartCond` — the condition under which the scan phase enters the
section on this page. -/
def euStartQualifies (sec title : Str) (pg : Page) : Bool :=
  (euStartSearch sec title pg.text).isSome && euStartCond pg

/-- The `in_section` phase of the EU `_find_section_text_and_pages`: when
an end pattern exists (numeric section) and matches, append only the text
before the match point and stop without recording the page; otherwise
record the page and its stripped text. -/
def euFindSectionLoop (endS : Option Str) (pages : List Page) (parts : List Str)
    (pnums : List Int) : List Str × List Int :=
  match pages with
  | [] => (parts, pnums)
  | pg :: rest =>
    if pg.text.isEmpty then euFindSectionLoop endS rest parts pnums
    else
      match endS with
      | some ns =>
        match euEndSearch ns pg.text with
        | some s_ => (parts ++ [stripL (pg.text.take s_)], pnums)
        | none =>
          euFindSectionLoop endS rest (parts ++ [stripL pg.text]) (pnums ++ [pg.page_number])
      | none =>
        euFindSectionLoop endS rest (parts ++ [stripL pg.text]) (pnums ++ [pg.page_number])

/-- The `not in_section` phase: the first page whose text matches the
start pattern AND passes `euStartCond` starts the section (its text after
`match.end()` is the first part); a matching page failing the condition is
skipped. -/
def euFindSectionScan (sec title : Str) (endS : Option Str) (pages : List Page) :
    List Str × List Int :=
  match pages with
  | [] => ([], [])
  | pg :: rest =>
    if pg.text.isEmpty then euFindSectionScan sec title endS rest
    else
      match euStartSearch sec title pg.text with
      | some e =>
        if euStartCond pg then
          euFindSectionLoop endS rest [stripL (pg.text.drop e)] [pg.page_number]
        else euFindSectionScan sec title endS rest
      | none => euFindSectionScan sec title endS rest

/-- `next_section = str(int(section_number) + 1) if section_number.isdigit()
else None` (lines 188-195: with a non-numeric section id there is no end
pattern). -/
def euNextSectionStr (sec : Str) : Option Str :=
  if allDigits sec then some (natToStr (digitsToNat sec + 1)) else none

/-- `EUEBAGl202006Parser._find_section_text_and_pages`. -/
def euFindSection (pages : List Page) (sec title : Str) : Option SectionInfo :=
  let r := euFindSectionScan sec title (euNextSectionStr sec) pages
  if r.1.isEmpty then none else some ⟨joinLines r.1, r.2⟩

/-- The lookahead of the EU clause pattern,
`(?=^\d{2,3}\.\s+|^Annex|^\d+\s+—|^{next_section_num}\.\s+|\Z)`, tested
at position `r`. -/
def euLookaheadAt (nextNumS t : Str) (r : Nat) : Bool :=
  decide (r = t.length) ||
  (isLineStart t r &&
    ((digitsThen t r 2 3 (fun a =>
        (litAt t a (['.'] : Str)).bind (fun b => wsPlusThen t b (fun c => some c)))).isSome ||
     (litAt t r ("Annex".toList)).isSome ||
     (digitsPlusThen t r (fun a =>
        wsPlusThen t a (fun b => litAt t b (['—'] : Str)))).isSome ||
     ((litAt t r nextNumS).bind (fun a =>
        (litAt t a (['.'] : Str)).bind (fun b => wsPlusThen t b (fun c => some c)))).isSome))

/-- One match of the EU clause pattern: groups 1 (the 2-3 digit id) and 2
(the content). -/
structure EuMatch where
  mstart : Nat
  id : Str
  content : Str
  mend : Nat
deriving DecidableEq, Repr

/-- The EU clause pattern
`^(\d{2,3})\.\s+(.*?)(?=^\d{2,3}\.\s+|^Annex|^\d+\s+—|^{next}\.\s+|\Z)`
with `re.DOTALL | re.MULTILINE`, matched at line start `p`. -/
def euClauseMatchAt (nextNumS t : Str) (p : Nat) : Option EuMatch :=
  digitsThen t p 2 3 (fun q =>
    (litAt t q (['.'] : Str)).bind (fun r =>
      wsPlusThen t r (fun c =>
        (firstFrom c t.length (euLookaheadAt nextNumS t)).map (fun e =>
          ⟨p, sliceL t p q, sliceL t c e, e⟩))))

/-- `clause_pattern.finditer(section_text)` for the EU pattern. -/
def euClauseScanAux (nextNumS t : Str) : Nat → Nat → List EuMatch
  | 0, _ => []
  | fuel + 1, pos =>
    match ((lineStarts t).filter (fun p => decide (pos ≤ p))).findSome?
        (euClauseMatchAt nextNumS t) with
    | none => []
    | some m => m :: euClauseScanAux nextNumS t fuel m.mend

/-- All EU clause-pattern matches of a section text, in document order. -/
def euClauseMatches (nextNumS t : Str) : List EuMatch :=
  euClauseScanAux nextNumS t (t.length + 1) 0

/-- The line filter of `_clean_clause_content`: a stripped line is kept
unless it is empty, shorter than 3 characters, all digits, or matches
`^[.\-\s]+$`. -/
def euContentLineKept (line : Str) : Bool :=
  !line.isEmpty &&
  !(line.length < 3 || allDigits line ||
    (!line.isEmpty && line.all (fun c => c == '.' || c == '-' || isWsC c)))

/-- Match of `\n\s*\n\s*\n` at position `p` (both `\s*` greedy with
backtracking); returns the end position. -/
def tripleNlAt (t : Str) (p : Nat) : Option Nat :=
  (litAt t p (['\n'] : Str)).bind (fun a =>
    wsStarThen t a (fun b =>
      (litAt t b (['\n'] : Str)).bind (fun c =>
        wsStarThen t c (fun d => litAt t d (['\n'] : Str)))))

/-- `re.sub(r"\n\s*\n\s*\n", "\n\n", s)`: replace each leftmost
non-overlapping match by two newlines, resuming after the match. -/
def subTripleNlAux (t : Str) : Nat → Nat → Str
  | 0, pos => t.drop pos
  | fuel + 1, pos =>
    match
      (List.range (t.length - pos)).findSome?
        (fun i => (tripleNlAt t (pos + i)).map (fun e => (pos + i, e))) with
    | none => t.drop pos
    | some (s_, e) => sliceL t pos s_ ++ '\n' :: '\n' :: subTripleNlAux t fuel e

/-- See `subTripleNlAux`. -/
def subTripleNl (s : Str) : Str := subTripleNlAux s (s.length + 1) 0

/-- `EUEBAGl202006Parser._clean_clause_content`. -/
def euCleanClauseContent (content : Str) : Str :=
  let kept := ((splitLinesL content).map stripL).filter euContentLineKept
  stripL (subTripleNl (joinLines kept))

/-- The loop condition of `_find_clause_page_number`: a page yields its
number when it belongs to `section_pages` and its text contains the
clause id. -/
def euPageHit (clause_id : Str) (section_pages : List Int) (pg : Page) : Option Int :=
  if section_pages.contains pg.page_number && isInfixOfL clause_id pg.text then
    some pg.page_number
  else none

/-- `EUEBAGl202006Parser._find_clause_page_number`: the first page (in
`pages_content` order) that belongs to `section_pages` and contains the
clause id; else the first section page; else -1. -/
def euFindClausePage (clause_id : Str) (section_pages : List Int) (pages : List Page) : Int :=
  match pages.findSome? (euPageHit clause_id section_pages) with
  | some n => n
  | none => match section_pages with | [] => -1 | p :: _ => p

/-- `EUEBAGl202006Parser.SUBSECTION_MAPPING` in declaration order. -/
def euSubsectionMapping : List (Str × Str) :=
  [ (("credit risk monitoring framework").toList,
     ("General provisions for the credit risk monitoring framework").toList),
    (("monitoring framework").toList,
     ("General provisions for the credit risk monitoring framework").toList),
    (("exposures and borrowers").toList,
     ("Monitoring of credit exposures and borrowers").toList),
    (("credit exposures and borrowers").toList,
     ("Monitoring of credit exposures and borrowers").toList),
    (("review of borrowers").toList,
     ("Regular credit review of borrowers").toList),
    (("credit review of borrowers").toList,
     ("Regular credit review of borrowers").toList),
    (("of covenants").toList, ("Monitoring of covenants").toList),
    (("monitoring of covenants").toList, ("Monitoring of covenants").toList),
    (("early warning indicators/watch lists in credit monitoring").toList,
     ("Use of early warning indicators/watch lists in credit monitoring").toList),
    (("watch lists in credit monitoring").toList,
     ("Use of early warning indicators/watch lists in credit monitoring").toList),
    (("escalation process on triggered EWIs").toList,
     ("Follow-up and escalation process on triggered EWIs").toList),
    (("process on triggered EWIs").toList,
     ("Follow-up and escalation process on triggered EWIs").toList) ]

/-- `EUEBAGl202006Parser._find_subsection_name`: scan up to the last 10
lines before the clause (blank lines are skipped but still consume window
slots) for a line whose lowercase form ends with a known subsection
ending (first mapping entry wins).  The source's `clause_id` parameter is
unused there and is dropped here. -/
def euFindSubsectionName (section_text : Str) (clause_start_pos : Nat) : Str :=
  if clause_start_pos = 0 then []
  else
    let linesBefore := splitLinesL (section_text.take clause_start_pos)
    let window := linesBefore.reverse.take (min 10 linesBefore.length)
    match
      window.findSome? (fun l0 =>
        let line := stripL l0
        if line.isEmpty then none
        else
          euSubsectionMapping.findSome? (fun pr =>
            if (lowerize pr.1).isSuffixOf (lowerize line) then some pr.2 else none)) with
    | some r => r
    | none => []

/-- `EUEBAGl202006Parser.SECTIONS_TO_EXTRACT` (class attribute). -/
def euSectionsToExtract : List (Str × Str) :=
  [(("8").toList, ("Monitoring framework").toList)]

/-- Python `dict.get(key, "")` over an association list in declaration
order. -/
def lookupD (l : List (Str × Str)) (k : Str) : Str :=
  match l.findSome? (fun pr => if pr.1 = k then some pr.2 else none) with
  | some v => v
  | none => []

/-- The loop body of `EUEBAGl202006Parser._extract_clauses_from_section`:
a match becomes a clause with the bare numeric id, `clause_type="R"` (kept
by the model validator), the class-level main section title, and the
running subsection name threaded through the accumulator. -/
def euClauseStep (info : SectionInfo) (sec : Str) (pages : List Page)
    (acc : List RegulationClause × Str) (m : EuMatch) : List RegulationClause × Str :=
  let clause_id := stripL m.id
  let content := euCleanClauseContent (stripL m.content)
  let newSub := euFindSubsectionName info.text m.mstart
  let cur := if !newSub.isEmpty then newSub else acc.2
  let page_number := euFindClausePage clause_id info.pages pages
  let msn := lookupD euSectionsToExtract sec
  (acc.1 ++ [mkRegulationClause sec clause_id msn cur content page_number
    ClauseType.REGULATION], cur)

/-- `EUEBAGl202006Parser._extract_clauses_from_section`: fold
`euClauseStep` over the clause-pattern matches in document order. -/
def euExtractClauses (info : SectionInfo) (sec : Str) (pages : List Page) :
    List RegulationClause :=
  let nextNumS := natToStr (digitsToNat sec + 1)
  ((euClauseMatches nextNumS info.text).foldl (euClauseStep info sec pages) ([], [])).1

/-! ## `_parse_document` assembly (claim C1)

`_parse_document` of each parser validates, extracts page text (I/O,
abstracted into the `validated` flag and the `pages` input), runs the
per-section pipeline, and then constructs `DocumentMetadata` and
`ParsedDocument`.  The UK CONC and EU parsers omit the required `country`
keyword argument in both constructions; the FG21 parser passes
`country=RegulationCountry.UK` in both. -/

/-- Errors surfaced by `_parse_document`. -/
inductive ParseError
  | invalidDocument
  | validation (e : PydanticError)
deriving DecidableEq, Repr

/-- `UKFCACoNCParser.SECTIONS_TO_EXTRACT`. -/
def ukSectionsToExtract : List (Str × Str) :=
  [(("5.2A").toList, ("Creditworthiness assessment").toList),
   (("2.10").toList, ("Mental capacity guidance").toList),
   (("7").toList, ("Arrears, default and recovery (including repossessions)").toList)]

/-- `self.config.sections_to_extract or self.SECTIONS_TO_EXTRACT`: a
missing or empty (falsy) configured map falls back to the class default. -/
def sectionsOrDefault (cfg : Option (List (Str × Str))) (dflt : List (Str × Str)) :
    List (Str × Str) :=
  match cfg with
  | none => dflt
  | some l => if l.isEmpty then dflt else l

/-- `UKFCACoNCParser._parse_document` after the I/O boundary: `validated`
is the `_validate_document` outcome and `pages` the `_extract_pdf_pages`
result.  The `DocumentMetadata(...)` call at lines 76-86 passes no
`country`, and neither does the `ParsedDocument(...)` call at lines 88-90,
so pydantic validation fails on every path that reaches them. -/
def ukParseDocument (source_file : Str) (cfg : Option (List (Str × Str)))
    (validated : Bool) (pages : List Page) : Except ParseError ParsedDocument :=
  if !validated then Except.error ParseError.invalidDocument
  else
    let secs := sectionsOrDefault cfg ukSectionsToExtract
    let allClauses := secs.foldl
      (fun acc pr =>
        match ukFindSection pages pr.1 pr.2 with
        | some info => acc ++ ukExtractClauses info pr.1 pages
        | none => acc)
      []
    match mkDocumentMetadata source_file (Int.ofNat pages.length) (secs.map (fun pr => pr.1))
        (some (("1.0.0").toList)) none with
    | Except.error e => Except.error (ParseError.validation e)
    | Except.ok md =>
      match mkParsedDocument (("UK_FCA_CONC").toList) none none allClauses md with
      | Except.error e => Except.error (ParseError.validation e)
      | Except.ok d => Except.ok d

/-- `EUEBAGl202006Parser._parse_document` after the I/O boundary: the
`DocumentMetadata(...)` call at lines 80-92 passes no `country`, and the
`ParsedDocument(...)` call at lines 94-99 passes `version` but again no
`country`. -/
def euParseDocument (source_file : Str) (cfg : Option (List (Str × Str)))
    (validated : Bool) (pages : List Page) : Except ParseError ParsedDocument :=
  if !validated then Except.error ParseError.invalidDocument
  else
    let secs := sectionsOrDefault cfg euSectionsToExtract
    let allClauses := secs.foldl
      (fun acc pr =>
        match euFindSection pages pr.1 pr.2 with
        | some info => acc ++ euExtractClauses info pr.1 pages
        | none => acc)
      []
    match mkDocumentMetadata source_file (Int.ofNat pages.length) (secs.map (fun pr => pr.1))
        (some (("1.0.0").toList)) none with
    | Except.error e => Except.error (ParseError.validation e)
    | Except.ok md =>
      match mkParsedDocument (("EU_EBA_GL_2020_06").toList) (some (("1.0.0").toList)) none
          allClauses md with
      | Except.error e => Except.error (ParseError.validation e)
      | Except.ok d => Except.ok d

/-- The output-building tail of `UKFCAFg21Parser._parse_document`
(uk/uk_fca_fg21.py lines 91-112), with the accumulated clause list
abstracted: this parser passes `country=RegulationCountry.UK` to both the
`DocumentMetadata(...)` and the `ParsedDocument(...)` constructions. -/
def fg21BuildOutput (source_file : Str) (pagesLen : Nat) (secKeys : List Str)
    (allClauses : List RegulationClause) : Except ParseError ParsedDocument :=
  match mkDocumentMetadata source_file (Int.ofNat pagesLen) secKeys
      (some (("1.0.0").toList)) (some RegulationCountry.UK) with
  | Except.error e => Except.error (ParseError.validation e)
  | Except.ok md =>
    match mkParsedDocument (("UK_FCA_FG21").toList) (some (("1.0.0").toList))
        (some RegulationCountry.UK) allClauses md with
    | Except.error e => Except.error (ParseError.validation e)
    | Except.ok d => Except.ok d

/-! ## Service layer (src/src/regulations/services/parser_service.py) -/

/-- Python `dict` assignment `d[k] = v` on an association list: an
existing key keeps its position and is overwritten, a new key is appended. -/
def dictInsert (d : List (Str × α)) (k : Str) (v : α) : List (Str × α) :=
  if d.any (fun pr => pr.1 = k) then
    d.map (fun pr => if pr.1 = k then (k, v) else pr)
  else d ++ [(k, v)]

/-- Errors raised by `_parse_all_documents_for_jurisdiction`: the
`ValueError` when no parsers exist for the jurisdiction, and the
aggregate `RuntimeError` listing each failed document type with its
underlying error message. -/
inductive BatchError
  | noParsersAvailable
  | allFailed (failures : List (Str × Str))
deriving DecidableEq, Repr

/-- The loop body of `_parse_all_documents_for_jurisdiction`: a success is
stored in the `parsed_documents` dict, a failure is appended to
`failed_parsers` and does not stop the loop. -/
def batchStep (parse1 : Str → Except Str α)
    (acc : List (Str × α) × List (Str × Str)) (dt : Str) :
    List (Str × α) × List (Str × Str) :=
  match parse1 dt with
  | Except.ok d => (dictInsert acc.1 dt d, acc.2)
  | Except.error e => (acc.1, acc.2 ++ [(dt, e)])

/-- `RegulationParserService._parse_all_documents_for_jurisdiction` (lines
146-228), abstracted over the per-type outcome
`parse1 : document type → Except errorMessage document` of
`_parse_single_document`: each available type is attempted in order via
`batchStep`, and the batch fails only when `parsed_documents` stayed
empty (or when no parsers are available at all). -/
def parseAllDocumentsForJurisdiction (available : List Str)
    (parse1 : Str → Except Str α) : Except BatchError (List (Str × α)) :=
  if available.isEmpty then Except.error BatchError.noParsersAvailable
  else
    let r := available.foldl (batchStep parse1) ([], [])
    if r.1.isEmpty then Except.error (BatchError.allFailed r.2) else Except.ok r.1

/-- The error message of a failed outcome (empty for a success). -/
def errMsgOf : Except Str α → Str
  | Except.error e => e
  | Except.ok _ => []

/-- `RegulationParserService._log_parse_operation` (lines 321-332): append
the operation, then keep only the last 1000 entries. -/
def logParseOperation (history : List α) (op : α) : List α :=
  let h := history ++ [op]
  if 1000 < h.length then h.drop (h.length - 1000) else h

/-! ## Helper lemmas -/

theorem descRange_bounds {lo hi j : Nat} (h : j ∈ descRange lo hi) : lo ≤ j ∧ j ≤ hi := by
  unfold descRange at h
  obtain ⟨i, hi_, rfl⟩ := List.mem_map.mp h
  have := List.mem_range.mp hi_
  omega

theorem ukFindSectionLoop_extends (sec : Str) :
    ∀ (pages : List Page) (parts : List Str) (pnums : List Int),
      ∃ ps ns, ukFindSectionLoop sec pages parts pnums = (parts ++ ps, pnums ++ ns) := by
  intro pages
  induction pages with
  | nil => intro parts pnums; exact ⟨[], [], by simp [ukFindSectionLoop]⟩
  | cons pg rest ih =>
    intro parts pnums
    unfold ukFindSectionLoop
    by_cases he : pg.text.isEmpty
    · simpa [he] using ih parts pnums
    · simp only [he, if_false]
      match hE : ukEndSearch pg.text with
      | some (s_, g) =>
        by_cases hEnd : ukSectionEndsHere sec g
        · exact ⟨[stripL (pg.text.take s_)], [], by simp [hEnd]⟩
        · obtain ⟨ps, ns, h⟩ := ih (parts ++ [stripL pg.text]) (pnums ++ [pg.page_number])
          exact ⟨[stripL pg.text] ++ ps, [pg.page_number] ++ ns, by simp [hEnd, h]⟩
      | none =>
        obtain ⟨ps, ns, h⟩ := ih (parts ++ [stripL pg.text]) (pnums ++ [pg.page_number])
        exact ⟨[stripL pg.text] ++ ps, [pg.page_number] ++ ns, by simp [h]⟩

theorem euFindSectionLoop_extends (endS : Option Str) :
    ∀ (pages : List Page) (parts : List Str) (pnums : List Int),
      ∃ ps ns, euFindSectionLoop endS pages parts pnums = (parts ++ ps, pnums ++ ns) := by
  intro pages
  induction pages with
  | nil => intro parts pnums; exact ⟨[], [], by simp [euFindSectionLoop]⟩
  | cons pg rest ih =>
    intro parts pnums
    unfold euFindSectionLoop
    by_cases he : pg.text.isEmpty
    · simpa [he] using ih parts pnums
    · simp only [he, if_false]
      match hS : endS with
      | some ns_ =>
        match hE : euEndSearch ns_ pg.text with
        | some s_ => exact ⟨[stripL (pg.text.take s_)], [], by simp [hE]⟩
        | none =>
          obtain ⟨ps, ns, h⟩ := ih (parts ++ [stripL pg.text]) (pnums ++ [pg.page_number])
          exact ⟨[stripL pg.text] ++ ps, [pg.page_number] ++ ns, by simp [hE, h]⟩
      | none =>
        obtain ⟨ps, ns, h⟩ := ih (parts ++ [stripL pg.text]) (pnums ++ [pg.page_number])
        exact ⟨[stripL pg.text] ++ ps, [pg.page_number] ++ ns, by simp [h]⟩

theorem mem_euClauseFold (info : SectionInfo) (sec : Str) (pages : List Page) :
    ∀ (ms : List EuMatch) (acc : List RegulationClause × Str) (c : RegulationClause),
      c ∈ (ms.foldl (euClauseStep info sec pages) acc).1 →
      c ∈ acc.1 ∨ ∃ m ∈ ms, ∃ cur : Str,
        c = mkRegulationClause sec (stripL m.id) (lookupD euSectionsToExtract sec) cur
              (euCleanClauseContent (stripL m.content))
              (euFindClausePage (stripL m.id) info.pages pages) ClauseType.REGULATION := by
  intro ms
  induction ms with
  | nil => intro acc c h; exact Or.inl h
  | cons m ms ih =>
    intro acc c h
    rcases ih (euClauseStep info sec pages acc m) c h with h1 | ⟨m', hm', cur, hc⟩
    · simp only [euClauseStep, List.mem_append, List.mem_singleton] at h1
      rcases h1 with h2 | h2
      · exact Or.inl h2
      · exact Or.inr ⟨m, List.mem_cons_self _ _, _, h2⟩
    · exact Or.inr ⟨m', List.mem_cons_of_mem _ hm', cur, hc⟩

theorem findSome?_eq_none_of (f : α → Option β) :
    ∀ l : List α, (∀ a ∈ l, f a = none) → l.findSome? f = none := by
  intro l
  induction l with
  | nil => intro _; rfl
  | cons a l ih =>
    intro h
    rw [List.findSome?_cons, h a (List.mem_cons_self _ _)]
    exact ih (fun x hx => h x (List.mem_cons_of_mem _ hx))

theorem foldl_pick_mem (f : Int → Bool) (S : List Int) :
    ∀ (l : List Int) (acc : Int), (∀ x ∈ l, x ∈ S) → acc ∈ S →
      l.foldl (fun a p => if f p then p else a) acc ∈ S := by
  intro l
  induction l with
  | nil => intro acc _ hacc; exact hacc
  | cons x l ih =>
    intro acc hl hacc
    simp only [List.foldl_cons]
    by_cases hx : f x
    · simp only [hx, if_true]
      exact ih _ (fun y hy => hl y (List.mem_cons_of_mem _ hy)) (hl x (List.mem_cons_self _ _))
    · simp only [hx, if_false]
      exact ih _ (fun y hy => hl y (List.mem_cons_of_mem _ hy)) hacc

theorem foldl_pick_const (f : Int → Bool) :
    ∀ (l : List Int) (acc : Int), (∀ x ∈ l, f x = false) →
      l.foldl (fun a p => if f p then p else a) acc = acc := by
  intro l
  induction l with
  | nil => intro acc _; rfl
  | cons x l ih =>
    intro acc hl
    simp only [List.foldl_cons, hl x (List.mem_cons_self _ _), if_false]
    exact ih _ (fun y hy => hl y (List.mem_cons_of_mem _ hy))

theorem contains_int_iff (l : List Int) (x : Int) : l.contains x = true ↔ x ∈ l := by
  simp [List.contains, List.elem_iff]

theorem take_mem_takeWhile_pred (f : Char → Bool) :
    ∀ (l : Str) (j : Nat), j ≤ (l.takeWhile f).length → ∀ c ∈ l.take j, f c = true := by
  intro l
  induction l with
  | nil => intro j _ c hc; simp at hc
  | cons a l ih =>
    intro j hj c hc
    cases hfa : f a
    · rw [List.takeWhile_cons, hfa] at hj
      simp at hj
      subst hj
      simp at hc
    · cases j with
      | zero => simp at hc
      | succ j =>
        rw [List.takeWhile_cons, hfa] at hj
        simp only [if_true, List.length_cons, Nat.succ_le_succ_iff] at hj
        rw [List.take_succ_cons] at hc
        rcases List.mem_cons.mp hc with rfl | hc2
        · exact hfa
        · exact ih j hj c hc2

theorem digit_not_ws (c : Char) (h : c.isDigit = true) : isWsC c = false := by
  cases hw : isWsC c
  · rfl
  · exfalso
    unfold isWsC at hw
    simp only [Bool.or_eq_true, beq_iff_eq] at hw
    rcases hw with ((((rfl | rfl) | rfl) | rfl) | rfl) | rfl <;> exact absurd h (by decide)

theorem stripL_of_no_ws (s : Str) (h : ∀ c ∈ s, isWsC c = false) : stripL s = s := by
  unfold stripL
  have h1 : s.dropWhile isWsC = s := by
    cases s with
    | nil => rfl
    | cons a l =>
      rw [List.dropWhile_cons, h a (List.mem_cons_self _ _)]
      simp
  rw [h1]
  have h2 : s.reverse.dropWhile isWsC = s.reverse := by
    cases hs : s.reverse with
    | nil => rfl
    | cons a l =>
      have ha : a ∈ s := by
        rw [← List.mem_reverse, hs]
        exact List.mem_cons_self _ _
      rw [List.dropWhile_cons, h a ha]
      simp
  rw [h2, List.reverse_reverse]

theorem mem_euClauseScanAux (nextNumS t : Str) :
    ∀ (fuel pos : Nat) (m : EuMatch), m ∈ euClauseScanAux nextNumS t fuel pos →
      ∃ p, euClauseMatchAt nextNumS t p = some m := by
  intro fuel
  induction fuel with
  | zero => intro pos m h; simp [euClauseScanAux] at h
  | succ fuel ih =>
    intro pos m h
    rw [euClauseScanAux] at h
    cases hfs : ((lineStarts t).filter (fun p => decide (pos ≤ p))).findSome?
        (euClauseMatchAt nextNumS t) with
    | none => rw [hfs] at h; simp at h
    | some m0 =>
      rw [hfs] at h
      rcases List.mem_cons.mp h with rfl | h2
      · obtain ⟨p, _, hp⟩ := List.exists_of_findSome?_eq_some hfs
        exact ⟨p, hp⟩
      · exact ih _ _ h2

theorem euClauseMatchAt_id (nextNumS t : Str) (p : Nat) (m : EuMatch)
    (h : euClauseMatchAt nextNumS t p = some m) :
    ∃ j, 2 ≤ j ∧ j ≤ 3 ∧ j ≤ runLen Char.isDigit t p ∧ m.id = sliceL t p (p + j) := by
  unfold euClauseMatchAt digitsThen at h
  obtain ⟨j, hj, hk⟩ := List.exists_of_findSome?_eq_some h
  obtain ⟨h2j, h3j⟩ := descRange_bounds hj
  refine ⟨j, h2j, by omega, by omega, ?_⟩
  rw [Option.bind_eq_some] at hk
  obtain ⟨r', _, hk2⟩ := hk
  unfold wsPlusThen at hk2
  obtain ⟨i, _, hk3⟩ := List.exists_of_findSome?_eq_some hk2
  simp only [] at hk3
  cases hff : firstFrom (r' + i) t.length (euLookaheadAt nextNumS t) with
  | none => rw [hff] at hk3; cases hk3
  | some e =>
    rw [hff] at hk3
    cases hk3
    rfl

/-! ## Claim theorems -/

/-- Claim C1: the UK CONC and EU EBA `_parse_document` never return a
`ParsedDocument` for any input — including inputs their
`_validate_document` accepts — because both construct `DocumentMetadata`
(and `ParsedDocument`) without the required `country` field, so pydantic
raises on every path past validation; only the FG21 variant supplies
`country`, and its output construction succeeds whenever at least one
page was extracted. -/
theorem c1_uk_eu_missing_country :
    (∀ (src : Str) (cfg : Option (List (Str × Str))) (v : Bool) (pages : List Page),
       isOkE (ukParseDocument src cfg v pages) = false) ∧
    (∀ (src : Str) (cfg : Option (List (Str × Str))) (v : Bool) (pages : List Page),
       isOkE (euParseDocument src cfg v pages) = false) ∧
    (∀ (src : Str) (n : Nat) (keys : List Str) (cls : List RegulationClause),
       1 ≤ n → isOkE (fg21BuildOutput src n keys cls) = true) := by
  refine ⟨?_, ?_, ?_⟩
  · intro src cfg v pages
    cases v <;> simp [ukParseDocument, mkDocumentMetadata, isOkE]
  · intro src cfg v pages
    cases v <;> simp [euParseDocument, mkDocumentMetadata, isOkE]
  · intro src n keys cls hn
    simp [fg21BuildOutput, mkDocumentMetadata, mkParsedDocument, hn, isOkE]

/-- Witness for C1 at concrete inputs. -/
theorem c1_witness :
    isOkE (ukParseDocument [] none true []) = false ∧
    isOkE (euParseDocument [] none true []) = false ∧
    isOkE (fg21BuildOutput [] 1 [] []) = true :=
  ⟨c1_uk_eu_missing_country.1 [] none true [],
   c1_uk_eu_missing_country.2.1 [] none true [],
   c1_uk_eu_missing_country.2.2 [] 1 [] [] (by decide)⟩

/-- Claim C2: when the segmenter does not explicitly set a non-UNKNOWN
clause type, the model validator derives it from the `clause_id` suffix
(" R" → REGULATION, " G" → GUIDANCE, else UNKNOWN); an explicitly set
non-UNKNOWN type is kept regardless of the suffix; and the EU segmenter
sets REGULATION on every clause it produces. -/
theorem c2_clause_type_rule :
    (∀ (cid : Str) (provided : ClauseType), provided ≠ ClauseType.UNKNOWN →
       determine_clause_type cid provided = provided) ∧
    (∀ cid : Str,
       determine_clause_type cid ClauseType.UNKNOWN =
         (if ([' ', 'R'] : Str).isSuffixOf cid then ClauseType.REGULATION
          else if ([' ', 'G'] : Str).isSuffixOf cid then ClauseType.GUIDANCE
          else ClauseType.UNKNOWN)) ∧
    (∀ (info : SectionInfo) (sec : Str) (pages : List Page) (c : RegulationClause),
       c ∈ euExtractClauses info sec pages → c.clause_type = ClauseType.REGULATION) := by
  refine ⟨?_, ?_, ?_⟩
  · intro cid provided h
    simp [determine_clause_type, h]
  · intro cid
    simp [determine_clause_type]
  · intro info sec pages c hc
    rcases mem_euClauseFold info sec pages _ _ _ hc with h | ⟨m, _, cur, rfl⟩
    · simp at h
    · simp [mkRegulationClause, determine_clause_type]

/-- Claim C5: both page attributors return a member of `section_pages`
whenever it is non-empty (the first section page when no page's text
contains the clause id), and return the sentinel -1 exactly when
`section_pages` is empty (page numbers being positive). -/
theorem c5_page_attributor_bounds :
    ∀ (cid : Str) (spages : List Int) (pages : List Page),
      (spages = [] → ukFindClausePage cid spages pages = -1 ∧
                     euFindClausePage cid spages pages = -1) ∧
      (spages ≠ [] → ukFindClausePage cid spages pages ∈ spages ∧
                     euFindClausePage cid spages pages ∈ spages) ∧
      (∀ p rest, spages = p :: rest →
         (∀ pg ∈ pages, (spages.contains pg.page_number && isInfixOfL cid pg.text) = false) →
         ukFindClausePage cid spages pages = p ∧ euFindClausePage cid spages pages = p) ∧
      ((∀ q ∈ spages, 0 < q) →
         ((ukFindClausePage cid spages pages = -1 ↔ spages = []) ∧
          (euFindClausePage cid spages pages = -1 ↔ spages = []))) := by
  intro cid spages pages
  have heuNil : euFindClausePage cid [] pages = -1 := by
    unfold euFindClausePage
    rw [findSome?_eq_none_of _ _ (fun pg _ => by simp [euPageHit, List.contains, List.elem])]
  have hmem : spages ≠ [] →
      ukFindClausePage cid spages pages ∈ spages ∧ euFindClausePage cid spages pages ∈ spages := by
    intro hne
    cases spages with
    | nil => exact absurd rfl hne
    | cons p rest =>
      constructor
      · unfold ukFindClausePage
        exact foldl_pick_mem _ (p :: rest) (p :: rest) p (fun x hx => hx)
          (List.mem_cons_self _ _)
      · unfold euFindClausePage
        cases hfs : pages.findSome? (euPageHit cid (p :: rest)) with
        | some n =>
          obtain ⟨pg, _, hpg⟩ := List.exists_of_findSome?_eq_some hfs
          unfold euPageHit at hpg
          by_cases hc : ((p :: rest : List Int).contains pg.page_number &&
              isInfixOfL cid pg.text) = true
          · rw [if_pos hc] at hpg
            obtain ⟨h1, _⟩ := Bool.and_eq_true_iff.mp hc
            have h2 := (contains_int_iff _ _).mp h1
            obtain rfl : pg.page_number = n := (Option.some.injEq _ _).mp hpg
            exact h2
          · rw [if_neg hc] at hpg; exact absurd hpg (by simp)
        | none => exact List.mem_cons_self _ _
  refine ⟨?_, hmem, ?_, ?_⟩
  · rintro rfl
    exact ⟨rfl, heuNil⟩
  · rintro p rest rfl hq
    constructor
    · unfold ukFindClausePage
      exact foldl_pick_const _ (p :: rest) p (fun x hx => by
        by_cases ha : ukPageHit cid pages x = true
        · obtain ⟨pg, hpgm, hpg⟩ := List.any_eq_true.mp ha
          obtain ⟨h1, h2⟩ := Bool.and_eq_true_iff.mp hpg
          have hx' : pg.page_number ∈ p :: rest := by
            rw [eq_of_beq h1]; exact hx
          have h3 := hq pg hpgm
          rw [(contains_int_iff _ _).mpr hx', h2] at h3
          simp at h3
        · simpa using ha)
    · unfold euFindClausePage
      rw [findSome?_eq_none_of _ _ (fun pg hpg => by
        unfold euPageHit; rw [if_neg (by rw [hq pg hpg]; simp)])]
  · intro hpos
    constructor
    · constructor
      · intro h1
        by_contra hne
        have h2 := (hmem hne).1
        rw [h1] at h2
        have := hpos _ h2
        omega
      · rintro rfl; rfl
    · constructor
      · intro h1
        by_contra hne
        have h2 := (hmem hne).2
        rw [h1] at h2
        have := hpos _ h2
        omega
      · rintro rfl
        exact heuNil

/-- Witness for C5 at concrete inputs. -/
theorem c5_witness :
    ukFindClausePage (("5.2A.1").toList) [41, 42] [⟨50, ("no match here").toList⟩] = 41 ∧
    euFindClausePage (("5.2A.1").toList) [41, 42] [⟨50, ("no match here").toList⟩] = 41 ∧
    (ukFindClausePage (("5.2A.1").toList) [] [] = -1 ↔ ([] : List Int) = []) :=
  ⟨((c5_page_attributor_bounds (("5.2A.1").toList) [41, 42]
        [⟨50, ("no match here").toList⟩]).2.2.1 41 [42] rfl (by decide)).1,
   ((c5_page_attributor_bounds (("5.2A.1").toList) [41, 42]
        [⟨50, ("no match here").toList⟩]).2.2.1 41 [42] rfl (by decide)).2,
   ((c5_page_attributor_bounds (("5.2A.1").toList) [] []).2.2.2 (by decide)).1⟩

/-- Witness for C2 at concrete inputs. -/
theorem c2_witness :
    determine_clause_type (("5.2A.1 R").toList) ClauseType.GUIDANCE = ClauseType.GUIDANCE ∧
    determine_clause_type (("5.2A.1 R").toList) ClauseType.UNKNOWN =
      (if ([' ', 'R'] : Str).isSuffixOf (("5.2A.1 R").toList) then ClauseType.REGULATION
       else if ([' ', 'G'] : Str).isSuffixOf (("5.2A.1 R").toList) then ClauseType.GUIDANCE
       else ClauseType.UNKNOWN) ∧
    ((euExtractClauses ⟨("240. Text of the clause here").toList, []⟩ (('8' :: []) : Str) []).map
        (fun c => c.clause_type)).all (fun ty => ty = ClauseType.REGULATION) = true := by
  refine ⟨c2_clause_type_rule.1 (("5.2A.1 R").toList) ClauseType.GUIDANCE (by decide),
    c2_clause_type_rule.2.1 (("5.2A.1 R").toList), ?_⟩
  rw [List.all_eq_true]
  intro ty hty
  obtain ⟨c, hc, rfl⟩ := List.mem_map.mp hty
  simp [c2_clause_type_rule.2.2 _ _ _ c hc]

/-- Claim C3: running the UK CONC section locator and clause segmenter on
the single page `{41, "5.2A Creditworthiness assessment\n5.2A.1 R A firm
must...\n5.2A.2 G The assessment..."}` with section spec `("5.2A",
"Creditworthiness assessment")` yields exactly two clauses, in order:
`"5.2A.1 R"` (REGULATION, page 41) and `"5.2A.2 G"` (GUIDANCE, page 41). -/
theorem c3_uk_conc_scenario :
    (ukFindSection
        [⟨41, ("5.2A Creditworthiness assessment\n5.2A.1 R A firm must...\n5.2A.2 G The assessment...").toList⟩]
        (("5.2A").toList) (("Creditworthiness assessment").toList)).map
      (fun info =>
        (ukExtractClauses info (("5.2A").toList)
            [⟨41, ("5.2A Creditworthiness assessment\n5.2A.1 R A firm must...\n5.2A.2 G The assessment...").toList⟩]).map
          (fun c => (c.clause_id, c.clause_type, c.page_number))) =
    some [(("5.2A.1 R").toList, ClauseType.REGULATION, 41),
          (("5.2A.2 G").toList, ClauseType.GUIDANCE, 41)] := by
  decide

/-- Claim C4 (code bug): on a fixture where pages 41 and 42 both contain
the clause id and `section_pages = [41, 42]`, the UK CONC inline page
attributor returns 42 — the LAST qualifying page — because its `break`
only leaves the inner loop, while the spec (and the claim) say the first
qualifying page, 41, which is what the EU `_find_clause_page_number`
returns on the same input. -/
theorem c4_uk_attribution_returns_last_not_first :
    ukFindClausePage (("5.2A.1").toList) [41, 42]
        [⟨41, ("5.2A.1 R text").toList⟩, ⟨42, ("5.2A.1 continued").toList⟩] = 42 ∧
    euFindClausePage (("5.2A.1").toList) [41, 42]
        [⟨41, ("5.2A.1 R text").toList⟩, ⟨42, ("5.2A.1 continued").toList⟩] = 41 := by
  decide

/-- Claim C6, counterexample: for section id "7" the claim fails.  The
page text `"9 Arrears and default recovery"` matches the end pattern with
capture "9", whose top-level prefix differs from "7", yet the in-section
loop does not end the section there: it appends the full page text and
records the page instead of stopping with only the text before the match
point. -/
theorem c6_counterexample_section7 :
    ukEndSearch (("9 Arrears and default recovery").toList) = some (0, ('9' :: [])) ∧
    dotTop ('9' :: []) ≠ dotTop ('7' :: []) ∧
    ukFindSectionLoop ('7' :: []) [⟨158, ("9 Arrears and default recovery").toList⟩] [] [] =
      ([("9 Arrears and default recovery").toList], [158]) ∧
    ukFindSectionLoop ('7' :: []) [⟨158, ("9 Arrears and default recovery").toList⟩] [] [] ≠
      ([] ++ [stripL ((("9 Arrears and default recovery").toList).take 0)], []) := by
  decide

theorem euFindSectionScan_skip (sec title : Str) (endS : Option Str) :
    ∀ (l rest : List Page),
      (∀ x ∈ l, euStartQualifies sec title x = false) →
      euFindSectionScan sec title endS (l ++ rest) = euFindSectionScan sec title endS rest := by
  intro l
  induction l with
  | nil => intro rest _; rfl
  | cons x l ih =>
    intro rest h
    have hx := h x (List.mem_cons_self _ _)
    unfold euStartQualifies at hx
    have hrest : ∀ y ∈ l, euStartQualifies sec title y = false :=
      fun y hy => h y (List.mem_cons_of_mem _ hy)
    show euFindSectionScan sec title endS (x :: (l ++ rest)) = _
    conv_lhs => rw [euFindSectionScan]
    by_cases he : x.text.isEmpty
    · simp only [he, if_true]
      exact ih rest hrest
    · simp only [he, Bool.false_eq_true, if_false]
      cases hs : euStartSearch sec title x.text with
      | none => exact ih rest hrest
      | some e =>
        rw [hs, Option.isSome_some, Bool.true_and] at hx
        simp only [hx, Bool.false_eq_true, if_false]
        exact ih rest hrest

/-- Claim C7: in the EU section locator for section "8", a page matching
the start pattern but neither containing the interior marker "240." nor
having page number ≥ 50 is never taken as the section start: when no page
qualifies the locator returns absent, and otherwise the first qualifying
page becomes the section start (the head of the recorded page list). -/
theorem c7_section_start_selection :
    ∀ pages : List Page,
      ((∀ pg ∈ pages,
          euStartQualifies (('8' :: []) : Str) (("Monitoring framework").toList) pg = false) →
         euFindSection pages (('8' :: []) : Str) (("Monitoring framework").toList) = none) ∧
      (∀ (l : List Page) (pg : Page) (r : List Page),
         pages = l ++ pg :: r →
         (∀ x ∈ l,
            euStartQualifies (('8' :: []) : Str) (("Monitoring framework").toList) x = false) →
         euStartQualifies (('8' :: []) : Str) (("Monitoring framework").toList) pg = true →
         ∃ info,
           euFindSection pages (('8' :: []) : Str) (("Monitoring framework").toList) =
             some info ∧
           info.pages.head? = some pg.page_number) := by
  intro pages
  constructor
  · intro h
    unfold euFindSection
    have h2 := euFindSectionScan_skip (('8' :: []) : Str) (("Monitoring framework").toList)
      (euNextSectionStr (('8' :: []) : Str)) pages [] h
    simp only [List.append_nil] at h2
    rw [h2]
    rfl
  · intro l pg r hsplit hskip hq
    unfold euStartQualifies at hq
    obtain ⟨h1, h2⟩ := Bool.and_eq_true_iff.mp hq
    obtain ⟨e, he⟩ := Option.isSome_iff_exists.mp h1
    have hnemp : pg.text.isEmpty = false := by
      cases htext : pg.text.isEmpty
      · rfl
      · exfalso
        rw [List.isEmpty_iff.mp htext] at he
        have hno : euStartSearch (('8' :: []) : Str) (("Monitoring framework").toList) [] =
            none := by decide
        rw [hno] at he
        cases he
    subst hsplit
    unfold euFindSection
    rw [euFindSectionScan_skip _ _ _ l (pg :: r) hskip]
    have hscan : euFindSectionScan (('8' :: []) : Str) (("Monitoring framework").toList)
        (euNextSectionStr (('8' :: []) : Str)) (pg :: r) =
        euFindSectionLoop (euNextSectionStr (('8' :: []) : Str)) r
          [stripL (pg.text.drop e)] [pg.page_number] := by
      conv_lhs => rw [euFindSectionScan]
      rw [hnemp]
      simp only [Bool.false_eq_true, if_false]
      rw [he]
      simp only [h2, if_true]
    rw [hscan]
    obtain ⟨ps, ns, hloop⟩ := euFindSectionLoop_extends _ r
      [stripL (pg.text.drop e)] [pg.page_number]
    rw [hloop]
    exact ⟨_, rfl, rfl⟩

/-- Witness for C7 at concrete inputs: a table-of-contents page (page 3,
matching the header but without the marker) is skipped, and the real
content page 60 becomes the section start. -/
theorem c7_witness :
    (euFindSection
        [⟨3, ("8. Monitoring framework .......... 61\nother toc lines").toList⟩,
         ⟨60, ("8. Monitoring framework\n240. Institutions should have a robust framework.").toList⟩]
        (('8' :: []) : Str) (("Monitoring framework").toList)).map
      (fun info => info.pages.head?) = some (some 60) := by
  obtain ⟨info, h1, h2⟩ :=
    (c7_section_start_selection
        [⟨3, ("8. Monitoring framework .......... 61\nother toc lines").toList⟩,
         ⟨60, ("8. Monitoring framework\n240. Institutions should have a robust framework.").toList⟩]).2
      [⟨3, ("8. Monitoring framework .......... 61\nother toc lines").toList⟩]
      ⟨60, ("8. Monitoring framework\n240. Institutions should have a robust framework.").toList⟩
      [] rfl (by decide) (by decide)
  rw [h1]
  simpa using h2

/-- Claim C8: the EU clause grammar recognizes exactly 2-or-3-digit
line-start markers: the scenario text under section "8" yields clause ids
"240" and "241" in order, both REGULATION (rule); and for every section
text and section, every produced clause id is a string of 2 or 3 digits —
never a 1-digit or a 4-or-more-digit number. -/
theorem c8_eu_clause_grammar :
    ((euExtractClauses
        ⟨("240. Institutions should have a robust framework.\n241. The monitoring framework...").toList,
          []⟩ (('8' :: []) : Str) []).map (fun c => (c.clause_id, c.clause_type)) =
      [(("240").toList, ClauseType.REGULATION), (("241").toList, ClauseType.REGULATION)]) ∧
    (∀ (info : SectionInfo) (sec : Str) (pages : List Page) (c : RegulationClause),
       c ∈ euExtractClauses info sec pages →
       (c.clause_id.length = 2 ∨ c.clause_id.length = 3) ∧
       c.clause_id.all Char.isDigit = true) := by
  constructor
  · decide
  · intro info sec pages c hc
    rcases mem_euClauseFold info sec pages _ _ _ hc with h | ⟨m, hm, cur, rfl⟩
    · simp at h
    · obtain ⟨p, hp⟩ := mem_euClauseScanAux _ _ _ _ _ hm
      obtain ⟨j, h2j, h3j, hrun, hid⟩ := euClauseMatchAt_id _ _ _ _ hp
      have hdig : ∀ ch ∈ m.id, Char.isDigit ch = true := by
        rw [hid]
        unfold sliceL
        intro ch hch
        refine take_mem_takeWhile_pred Char.isDigit (info.text.drop p) (p + j - p)
          ?_ ch hch
        unfold runLen at hrun
        omega
      have hlen : m.id.length = j := by
        rw [hid]
        unfold sliceL
        have hle : j ≤ (info.text.drop p).length := by
          have := (List.takeWhile_prefix (l := info.text.drop p) Char.isDigit).length_le
          unfold runLen at hrun
          omega
        rw [List.length_take]
        omega
      have hstr : stripL m.id = m.id :=
        stripL_of_no_ws _ (fun ch hch => digit_not_ws ch (hdig ch hch))
      have hcid : (mkRegulationClause sec (stripL m.id) (lookupD euSectionsToExtract sec) cur
          (euCleanClauseContent (stripL m.content))
          (euFindClausePage (stripL m.id) info.pages pages)
          ClauseType.REGULATION).clause_id = stripL m.id := rfl
      rw [hcid, hstr]
      refine ⟨by omega, ?_⟩
      rw [List.all_eq_true]
      exact hdig

/-- Witness for C8 at concrete inputs. -/
theorem c8_witness :
    ((euExtractClauses
        ⟨("240. Institutions should have a robust framework.\n241. The monitoring framework...").toList,
          []⟩ (('8' :: []) : Str) []).map (fun c => c.clause_id)).all
      (fun cid => (decide (cid.length = 2) || decide (cid.length = 3)) &&
        cid.all Char.isDigit) = true := by
  rw [List.all_eq_true]
  intro cid hcid
  obtain ⟨c, hc, rfl⟩ := List.mem_map.mp hcid
  obtain ⟨h1, h2⟩ := c8_eu_clause_grammar.2 _ _ _ c hc
  rcases h1 with h1 | h1 <;> simp [h1, h2]

/-- Claim C6 (amended): once inside a section, for every section id other
than "7": a page whose end-pattern capture differs at the top level from
the section id's top-level prefix always ends the section (only the text
before the match point is appended, the page is not recorded, scanning
stops), and a capture sharing the top-level prefix ends it exactly when
it is not a dotted extension of the exact section id.  For the
special-cased section "7", the section ends exactly when the capture's
top-level prefix is "8". -/
theorem c6_amended_end_rule :
    ∀ (sec : Str) (pg : Page) (rest : List Page) (parts : List Str) (pnums : List Int)
      (s_ : Nat) (g : Str), pg.text ≠ [] → ukEndSearch pg.text = some (s_, g) →
      ((sec ≠ ('7' :: []) → dotTop g ≠ dotTop sec →
          ukFindSectionLoop sec (pg :: rest) parts pnums =
            (parts ++ [stripL (pg.text.take s_)], pnums)) ∧
       (sec ≠ ('7' :: []) → dotTop g = dotTop sec →
          (ukFindSectionLoop sec (pg :: rest) parts pnums =
             (parts ++ [stripL (pg.text.take s_)], pnums) ↔
           (sec ++ ['.'] : Str).isPrefixOf g = false)) ∧
       (sec = ('7' :: []) →
          (ukFindSectionLoop sec (pg :: rest) parts pnums =
             (parts ++ [stripL (pg.text.take s_)], pnums) ↔
           dotTop g = ('8' :: [])))) := by
  intro sec pg rest parts pnums s_ g hne hE
  have hner : ¬ pg.text.isEmpty = true := by simpa [List.isEmpty_iff] using hne
  have hstep : ukFindSectionLoop sec (pg :: rest) parts pnums =
      if ukSectionEndsHere sec g then (parts ++ [stripL (pg.text.take s_)], pnums)
      else ukFindSectionLoop sec rest (parts ++ [stripL pg.text]) (pnums ++ [pg.page_number]) := by
    conv_lhs => rw [ukFindSectionLoop]
    simp [hner, hE]
  have hneq : ukFindSectionLoop sec rest (parts ++ [stripL pg.text])
      (pnums ++ [pg.page_number]) ≠ (parts ++ [stripL (pg.text.take s_)], pnums) := by
    obtain ⟨ps, ns, hx⟩ :=
      ukFindSectionLoop_extends sec rest (parts ++ [stripL pg.text]) (pnums ++ [pg.page_number])
    intro hcontra
    rw [hx] at hcontra
    have hlen := congrArg (fun pr : List Str × List Int => pr.2.length) hcontra
    simp at hlen
  refine ⟨?_, ?_, ?_⟩
  · intro h7 hdiff
    have hEnds : ukSectionEndsHere sec g = true := by
      unfold ukSectionEndsHere
      rw [if_neg h7, if_pos hdiff]
    rw [hstep, if_pos hEnds]
  · intro h7 hsame
    have hval : ukSectionEndsHere sec g = !((sec ++ ['.'] : Str).isPrefixOf g) := by
      unfold ukSectionEndsHere
      rw [if_neg h7, if_neg (by simp [hsame])]
    rw [hstep, hval]
    cases hp : (sec ++ ['.'] : Str).isPrefixOf g
    · simp
    · simp only [hp, Bool.not_true, if_false]
      constructor
      · intro hc; exact absurd hc hneq
      · intro hfalse; cases hfalse
  · rintro rfl
    by_cases h8 : dotTop g = ('8' :: [])
    · have hEnds : ukSectionEndsHere ('7' :: []) g = true := by
        unfold ukSectionEndsHere
        rw [if_pos rfl]
        simp [h8]
      rw [hstep, if_pos hEnds]
      simp [h8]
    · have hEnds : ukSectionEndsHere ('7' :: []) g = false := by
        unfold ukSectionEndsHere
        rw [if_pos rfl]
        simp [h8]
      rw [hstep, if_neg (by simp [hEnds])]
      constructor
      · intro hc; exact absurd hc hneq
      · intro hcon; exact absurd hcon h8

/-- Witness for C6 (amended) at concrete inputs: under section "6", the
heading "5.3 Somelongheading here" (capture "5.3", top-level prefix "5")
ends the section with only the text before the match appended. -/
theorem c6_witness :
    ukFindSectionLoop (('6' :: []) : Str) [⟨100, ("5.3 Somelongheading here").toList⟩] [] [] =
      ([] ++ [stripL ((("5.3 Somelongheading here").toList).take 0)], []) :=
  (c6_amended_end_rule (('6' :: []) : Str) ⟨100, ("5.3 Somelongheading here").toList⟩ [] [] []
      0 (('5' :: '.' :: '3' :: []) : Str) (by decide) (by decide)).1 (by decide) (by decide)

theorem dictInsert_ne_nil (d : List (Str × α)) (k : Str) (v : α) : dictInsert d k v ≠ [] := by
  unfold dictInsert
  by_cases h : d.any (fun pr => pr.1 = k)
  · simp only [h, if_true]
    intro hc
    rw [List.map_eq_nil_iff] at hc
    subst hc
    simp at h
  · simp only [h, if_false]
    simp

theorem mem_dictInsert_self (d : List (Str × α)) (k : Str) (v : α) :
    (k, v) ∈ dictInsert d k v := by
  unfold dictInsert
  by_cases h : d.any (fun pr => pr.1 = k)
  · simp only [h, if_true]
    obtain ⟨pr, hpr, hk⟩ := List.any_eq_true.mp h
    rw [List.mem_map]
    refine ⟨pr, hpr, ?_⟩
    simp only [decide_eq_true_eq] at hk
    rw [if_pos hk]
  · simp only [h, if_false]
    simp

theorem mem_dictInsert_elim (d : List (Str × α)) (k : Str) (v : α) (a : Str) (b : α)
    (h : (a, b) ∈ dictInsert d k v) : (a, b) ∈ d ∨ (a = k ∧ b = v) := by
  unfold dictInsert at h
  by_cases hc : d.any (fun pr => pr.1 = k)
  · rw [if_pos hc] at h
    obtain ⟨pr, hpr, hh⟩ := List.mem_map.mp h
    by_cases hk : pr.1 = k
    · rw [if_pos hk] at hh
      right
      have h1 := (Prod.mk.injEq _ _ _ _).mp hh
      exact ⟨h1.1.symm, h1.2.symm⟩
    · rw [if_neg hk] at hh
      left
      rw [← hh]
      exact hpr
  · rw [if_neg hc] at h
    rcases List.mem_append.mp h with h1 | h1
    · exact Or.inl h1
    · right
      simp at h1
      exact ⟨h1.1, h1.2⟩

theorem mem_dictInsert_of_mem (d : List (Str × α)) (k : Str) (v : α) (a : Str) (b : α)
    (hne : a ≠ k) (h : (a, b) ∈ d) : (a, b) ∈ dictInsert d k v := by
  unfold dictInsert
  by_cases hc : d.any (fun pr => pr.1 = k)
  · rw [if_pos hc]
    rw [List.mem_map]
    exact ⟨(a, b), h, by rw [if_neg (by simpa using hne)]⟩
  · rw [if_neg hc]
    exact List.mem_append.mpr (Or.inl h)

theorem key_dictInsert (d : List (Str × α)) (k : Str) (v : α) (a : Str)
    (h : ∃ w, (a, w) ∈ d) : ∃ w, (a, w) ∈ dictInsert d k v := by
  by_cases hak : a = k
  · subst hak
    exact ⟨v, mem_dictInsert_self d a v⟩
  · obtain ⟨w, hw⟩ := h
    exact ⟨w, mem_dictInsert_of_mem d k v a w hak hw⟩

theorem batchFold_docs_nil_iff (parse1 : Str → Except Str α) :
    ∀ (l : List Str) (acc : List (Str × α) × List (Str × Str)),
      (l.foldl (batchStep parse1) acc).1 = [] ↔
        (acc.1 = [] ∧ ∀ t ∈ l, isOkE (parse1 t) = false) := by
  intro l
  induction l with
  | nil => intro acc; simp
  | cons dt l ih =>
    intro acc
    rw [List.foldl_cons, ih]
    cases hp : parse1 dt with
    | ok d =>
      simp only [batchStep, hp]
      constructor
      · rintro ⟨h1, _⟩
        exact absurd h1 (dictInsert_ne_nil _ _ _)
      · rintro ⟨h1, h2⟩
        have := h2 dt (List.mem_cons_self _ _)
        rw [hp] at this
        cases this
    | error e =>
      simp only [batchStep, hp]
      constructor
      · rintro ⟨h1, h2⟩
        refine ⟨h1, ?_⟩
        intro t ht
        rcases List.mem_cons.mp ht with rfl | ht2
        · rw [hp]; rfl
        · exact h2 t ht2
      · rintro ⟨h1, h2⟩
        exact ⟨h1, fun t ht => h2 t (List.mem_cons_of_mem _ ht)⟩

theorem batchFold_all_failed (parse1 : Str → Except Str α) :
    ∀ (l : List Str) (acc : List (Str × α) × List (Str × Str)),
      (∀ t ∈ l, isOkE (parse1 t) = false) →
      l.foldl (batchStep parse1) acc =
        (acc.1, acc.2 ++ l.map (fun t => (t, errMsgOf (parse1 t)))) := by
  intro l
  induction l with
  | nil => intro acc _; simp
  | cons dt l ih =>
    intro acc h
    have hdt := h dt (List.mem_cons_self _ _)
    rw [List.foldl_cons]
    cases hp : parse1 dt with
    | ok d => rw [hp] at hdt; cases hdt
    | error e =>
      rw [ih (batchStep parse1 acc dt) (fun t ht => h t (List.mem_cons_of_mem _ ht))]
      simp [batchStep, hp, errMsgOf]

theorem batchFold_key_iff (parse1 : Str → Except Str α) :
    ∀ (l : List Str) (acc : List (Str × α) × List (Str × Str)) (t : Str),
      (∃ v, (t, v) ∈ (l.foldl (batchStep parse1) acc).1) ↔
        ((∃ v, (t, v) ∈ acc.1) ∨ (t ∈ l ∧ isOkE (parse1 t) = true)) := by
  intro l
  induction l with
  | nil => intro acc t; simp
  | cons dt l ih =>
    intro acc t
    rw [List.foldl_cons, ih]
    cases hp : parse1 dt with
    | ok d =>
      simp only [batchStep, hp]
      constructor
      · rintro (⟨v, hv⟩ | ⟨ht, hok⟩)
        · rcases mem_dictInsert_elim _ _ _ _ _ hv with h1 | ⟨rfl, rfl⟩
          · exact Or.inl ⟨v, h1⟩
          · exact Or.inr ⟨List.mem_cons_self _ _, by rw [hp]; rfl⟩
        · exact Or.inr ⟨List.mem_cons_of_mem _ ht, hok⟩
      · rintro (⟨v, hv⟩ | ⟨ht, hok⟩)
        · exact Or.inl (key_dictInsert _ _ _ _ ⟨v, hv⟩)
        · rcases List.mem_cons.mp ht with rfl | ht2
          · exact Or.inl ⟨d, mem_dictInsert_self _ _ _⟩
          · exact Or.inr ⟨ht2, hok⟩
    | error e =>
      simp only [batchStep, hp]
      constructor
      · rintro (h1 | ⟨ht, hok⟩)
        · exact Or.inl h1
        · exact Or.inr ⟨List.mem_cons_of_mem _ ht, hok⟩
      · rintro (h1 | ⟨ht, hok⟩)
        · exact Or.inl h1
        · rcases List.mem_cons.mp ht with rfl | ht2
          · rw [hp] at hok; cases hok
          · exact Or.inr ⟨ht2, hok⟩

theorem batchFold_values (parse1 : Str → Except Str α) :
    ∀ (l : List Str) (acc : List (Str × α) × List (Str × Str)),
      (∀ a ∈ acc.1, parse1 (a : Str × α).1 = Except.ok a.2) →
      ∀ t v, (t, v) ∈ (l.foldl (batchStep parse1) acc).1 → parse1 t = Except.ok v := by
  intro l
  induction l with
  | nil => intro acc hinv t v hm; exact hinv (t, v) hm
  | cons dt l ih =>
    intro acc hinv t v hm
    rw [List.foldl_cons] at hm
    refine ih (batchStep parse1 acc dt) ?_ t v hm
    intro a ha
    cases hp : parse1 dt with
    | ok d =>
      simp only [batchStep, hp] at ha
      rcases mem_dictInsert_elim _ _ _ _ _ (by exact ha) with h1 | ⟨h1, h2⟩
      · exact hinv a h1
      · obtain ⟨a1, a2⟩ := a
        simp only at h1 h2
        subst h1
        subst h2
        exact hp
    | error e =>
      simp only [batchStep, hp] at ha
      exact hinv a ha

/-- Claim C9: in the batch parse of all document types for a jurisdiction,
a failing variant does not stop the remaining variants; the batch errors
exactly when no variant succeeded; when every variant of a non-empty type
list fails, the aggregate error lists each failed document type with its
underlying error, in order; and a successful batch maps exactly the
successful document types to their parsed documents. -/
theorem c9_batch_all_documents (α : Type) (available : List Str)
    (parse1 : Str → Except Str α) :
    (isOkE (parseAllDocumentsForJurisdiction available parse1) = true ↔
       ∃ t ∈ available, isOkE (parse1 t) = true) ∧
    (available ≠ [] → (∀ t ∈ available, isOkE (parse1 t) = false) →
       parseAllDocumentsForJurisdiction available parse1 =
         Except.error (BatchError.allFailed
           (available.map (fun t => (t, errMsgOf (parse1 t)))))) ∧
    (∀ m, parseAllDocumentsForJurisdiction available parse1 = Except.ok m →
       (∀ t, (∃ v, (t, v) ∈ m) ↔ (t ∈ available ∧ isOkE (parse1 t) = true)) ∧
       (∀ t v, (t, v) ∈ m → parse1 t = Except.ok v)) := by
  refine ⟨?_, ?_, ?_⟩
  · unfold parseAllDocumentsForJurisdiction
    by_cases hav : available.isEmpty
    · rw [if_pos hav]
      rw [List.isEmpty_iff] at hav
      subst hav
      simp [isOkE]
    · rw [if_neg hav]
      by_cases hnil : (available.foldl (batchStep parse1) ([], [])).1 = []
      · rw [if_pos (by rw [hnil]; rfl)]
        have h2 := (batchFold_docs_nil_iff parse1 available ([], [])).mp hnil
        constructor
        · intro hfalse; exact absurd hfalse (by simp [isOkE])
        · rintro ⟨t, ht, hok⟩
          rw [h2.2 t ht] at hok
          cases hok
      · rw [if_neg (by simpa [List.isEmpty_iff] using hnil)]
        simp only [isOkE, true_iff]
        by_contra hno
        push_neg at hno
        refine hnil ((batchFold_docs_nil_iff parse1 available ([], [])).mpr ⟨rfl, ?_⟩)
        intro t ht
        have := hno t ht
        cases h : isOkE (parse1 t)
        · rfl
        · exact absurd h this
  · intro hne hall
    unfold parseAllDocumentsForJurisdiction
    rw [if_neg (by simpa [List.isEmpty_iff] using hne)]
    rw [batchFold_all_failed parse1 available ([], []) hall]
    rfl
  · intro m hm
    unfold parseAllDocumentsForJurisdiction at hm
    by_cases hav : available.isEmpty
    · rw [if_pos hav] at hm; cases hm
    · rw [if_neg hav] at hm
      by_cases hnil : (available.foldl (batchStep parse1) ([], [])).1.isEmpty
      · rw [if_pos hnil] at hm; cases hm
      · rw [if_neg hnil] at hm
        obtain rfl : (available.foldl (batchStep parse1) ([], [])).1 = m :=
          (Except.ok.injEq _ _).mp hm
        constructor
        · intro t
          have h3 := batchFold_key_iff parse1 available ([], []) t
          simp only [List.not_mem_nil, exists_false, false_or] at h3
          exact h3
        · intro t v hv
          exact batchFold_values parse1 available ([], []) (by intro a ha; simp at ha) t v hv

/-- Witness for C9 at concrete inputs. -/
theorem c9_witness :
    parseAllDocumentsForJurisdiction [("A").toList]
        (fun _ => (Except.error (("boom").toList) : Except Str Nat)) =
      Except.error (BatchError.allFailed [(("A").toList, ("boom").toList)]) :=
  (c9_batch_all_documents Nat [("A").toList]
      (fun _ => (Except.error (("boom").toList) : Except Str Nat))).2.1
    (by decide) (fun t _ => rfl)

/-- Claim C10: the operation-history log keeps at most 1000 entries, and
after logging, the log is exactly a suffix of the previous log with the
new entry appended — of length `min (|h|+1) 1000` — so only the oldest
entries are ever evicted. -/
theorem c10_history_bound (α : Type) (h : List α) (op : α) :
    (logParseOperation h op).length = min (h.length + 1) 1000 ∧
    logParseOperation h op <:+ h ++ [op] := by
  unfold logParseOperation
  by_cases hl : 1000 < (h ++ [op]).length
  · simp only [hl, if_true]
    constructor
    · have := List.length_drop ((h ++ [op]).length - 1000) (h ++ [op])
      simp only [List.length_append, List.length_cons, List.length_nil] at *
      omega
    · exact List.drop_suffix _ _
  · simp only [hl, if_false]
    constructor
    · simp only [List.length_append, List.length_cons, List.length_nil] at *
      omega
    · exact List.suffix_refl _

end LoanCompliance
